import Mathlib

/-!
Shallow embedding of `src/functions.py` from the ulauncher-obsidian
repository.  Python strings are modelled as `List Char` (`PyStr`);
Python floats (fuzzy-match scores) are modelled as `ℚ`, which carries the
same ordering behaviour on the values the program compares; fallible
operations return `Option`; the filesystem is passed explicitly.
-/

/-- Python string, modelled as a list of characters. -/
abbrev PyStr := List Char

/-- Lowercase one character as CPython's `str.lower` does on ASCII input
(the embedding restricts case mapping to ASCII). -/
def pyLowerChar (c : Char) : Char :=
  if 'A' ≤ c ∧ c ≤ 'Z' then Char.ofNat (c.toNat + 32) else c

/-- Python `s.lower()`. -/
def pyLower (s : PyStr) : PyStr := s.map pyLowerChar

/-- Boolean test that `s` starts with `pat` (Python `s.startswith(pat)`). -/
def listStarts {α : Type} [DecidableEq α] : List α → List α → Bool
  | [], _ => true
  | _ :: _, [] => false
  | p :: ps, c :: cs => decide (p = c) && listStarts ps cs

/-- Boolean test that `s` ends with `sfx` (Python `s.endswith(sfx)`). -/
def listEnds {α : Type} [DecidableEq α] (sfx s : List α) : Bool :=
  listStarts sfx.reverse s.reverse

/-- Boolean substring test (Python `pat in s`). -/
def strContains (pat : PyStr) : PyStr → Bool
  | [] => listStarts pat []
  | c :: rest => listStarts pat (c :: rest) || strContains pat rest

/-- Helper for Python `s.partition(sep)`: scans for the first occurrence
of a non-empty `sep` and splits around it; when absent returns
`(s, [], [])` as CPython does. -/
def partFind (sep : PyStr) : PyStr → PyStr × PyStr × PyStr
  | [] => ([], [], [])
  | c :: rest =>
    if listStarts sep (c :: rest) then ([], sep, (c :: rest).drop sep.length)
    else
      let t := partFind sep rest
      (c :: t.1, t.2.1, t.2.2)

/-- Python `s.partition(sep)`.  CPython raises `ValueError` on an empty
separator; that failure is modelled by `none`. -/
def pyPartition (s sep : PyStr) : Option (PyStr × PyStr × PyStr) :=
  if sep = [] then none else some (partFind sep s)

/-- Fuel-indexed core of Python `s.replace(old, new)` for a non-empty
`old`: replaces every non-overlapping occurrence left to right.  The fuel
only needs to cover the length of the scanned string. -/
def replaceAllGo (pat new : PyStr) : Nat → PyStr → PyStr
  | _, [] => []
  | 0, s => s
  | fuel + 1, c :: rest =>
    if listStarts pat (c :: rest) ∧ pat ≠ [] then
      new ++ replaceAllGo pat new fuel ((c :: rest).drop pat.length)
    else
      c :: replaceAllGo pat new fuel rest

/-- Python `s.replace(pat, new)` for the non-empty patterns the program
uses (an empty `vault` never reaches the replace branch because Python
treats it as falsy). -/
def replaceAll (pat new s : PyStr) : PyStr := replaceAllGo pat new s.length s

/-- Python `os.path.basename` on POSIX: everything after the last slash. -/
def pyBasename (p : PyStr) : PyStr := (p.reverse.takeWhile (fun c => c ≠ '/')).reverse

/-- Python `os.path.splitext` on POSIX: splits off the extension at the
last dot of the final path component, unless every character of that
component before the dot is itself a dot. -/
def pySplitext (p : PyStr) : PyStr × PyStr :=
  let base := pyBasename p
  let stem := base.drop (base.takeWhile (fun c => c = '.')).length
  let after := stem.reverse.takeWhile (fun c => c ≠ '.')
  if after.length = stem.length then (p, [])
  else (p.take (p.length - after.length - 1), p.drop (p.length - after.length - 1))

/-- Python `os.path.join` on POSIX, two arguments. -/
def pyJoin (a b : PyStr) : PyStr :=
  if b.head? = some '/' then b
  else if a = [] ∨ a.getLast? = some '/' then a ++ b
  else a ++ '/' :: b

/-- Python `s.lstrip('/')`. -/
def lstripSlash (s : PyStr) : PyStr := s.dropWhile (fun c => c = '/')

/-- Decimal digit character for a value below ten. -/
def digitChar (k : Nat) : Char :=
  if k = 0 then '0' else if k = 1 then '1' else if k = 2 then '2'
  else if k = 3 then '3' else if k = 4 then '4' else if k = 5 then '5'
  else if k = 6 then '6' else if k = 7 then '7' else if k = 8 then '8' else '9'

/-- Fuel-indexed decimal rendering of a natural number (most significant
digit first); the fuel only needs to exceed the number of digits. -/
def natDigitsGo : Nat → Nat → PyStr
  | 0, _ => []
  | fuel + 1, n =>
    if n < 10 then [digitChar n]
    else natDigitsGo fuel (n / 10) ++ [digitChar (n % 10)]

/-- Decimal rendering of a natural number, as CPython's `str`/`strftime`
produce it. -/
def natDigits (n : Nat) : PyStr := natDigitsGo (n + 1) n

/-- Zero-pad a digit string on the left to width `w`. -/
def padZero (w : Nat) (s : PyStr) : PyStr := List.replicate (w - s.length) '0' ++ s

/-- Calendar date (the component of `datetime.datetime.now()` the
embedded functions consume). -/
structure Date where
  year : Nat
  month : Nat
  day : Nat
deriving DecidableEq

/-- Modelled from the spec: `convert_moment_to_strptime_format`
(src/src/moment.py, which is absent from src/) composed with
`datetime.strftime`.  Per spec section 4.1 it is a token-table rewrite of
the moment mini-language: known date tokens map to the corresponding date
fields, bracket-escaped segments are emitted literally, and unknown
tokens pass through verbatim.  The token table here covers the
year/month/day tokens; the Boolean flag tracks being inside a
bracket-escaped literal segment. -/
def formatMomentGo (d : Date) : Bool → PyStr → PyStr
  | _, [] => []
  | true, ']' :: rest => formatMomentGo d false rest
  | true, c :: rest => c :: formatMomentGo d true rest
  | false, '[' :: rest => formatMomentGo d true rest
  | false, 'Y' :: 'Y' :: 'Y' :: 'Y' :: rest =>
      padZero 4 (natDigits d.year) ++ formatMomentGo d false rest
  | false, 'Y' :: 'Y' :: rest =>
      padZero 2 (natDigits (d.year % 100)) ++ formatMomentGo d false rest
  | false, 'M' :: 'M' :: rest =>
      padZero 2 (natDigits d.month) ++ formatMomentGo d false rest
  | false, 'M' :: rest => natDigits d.month ++ formatMomentGo d false rest
  | false, 'D' :: 'D' :: rest =>
      padZero 2 (natDigits d.day) ++ formatMomentGo d false rest
  | false, 'D' :: rest => natDigits d.day ++ formatMomentGo d false rest
  | false, c :: rest => c :: formatMomentGo d false rest

/-- Modelled from the spec: format the current date with a moment-style
format string (see `formatMomentGo`). -/
def formatMoment (fmt : PyStr) (d : Date) : PyStr := formatMomentGo d false fmt

/-- Uppercase hexadecimal digit, as `urllib.parse.quote` emits. -/
def hexChar (k : Nat) : Char :=
  if k < 10 then digitChar k
  else if k = 10 then 'A' else if k = 11 then 'B' else if k = 12 then 'C'
  else if k = 13 then 'D' else if k = 14 then 'E' else 'F'

/-- Percent-escape of one byte. -/
def byteToPct (b : Nat) : PyStr := ['%', hexChar (b / 16), hexChar (b % 16)]

/-- Encoding of one code point into its UTF-8 bytes. -/
def utf8Bytes (c : Char) : List Nat :=
  let n := c.toNat
  if n < 128 then [n]
  else if n < 2048 then [192 + n / 64, 128 + n % 64]
  else if n < 65536 then [224 + n / 4096, 128 + (n / 64) % 64, 128 + n % 64]
  else [240 + n / 262144, 128 + (n / 4096) % 64, 128 + (n / 64) % 64, 128 + n % 64]

/-- Python `urllib.parse.quote(s, safe='')`: ASCII letters, digits and
`_.-~` pass through, everything else is percent-encoded byte-wise (this
is the quoting `urlencode` applies when handed `quote_via=quote`,
because `urlencode`'s default `safe` parameter is the empty string). -/
def pyQuote (s : PyStr) : PyStr :=
  s.flatMap fun c =>
    if c.isAlphanum ∨ c = '_' ∨ c = '.' ∨ c = '-' ∨ c = '~' then [c]
    else (utf8Bytes c).flatMap byteToPct

/-- Python `urllib.parse.urlencode(pairs, quote_via=quote)` over an
insertion-ordered dict, modelled as a list of key/value pairs. -/
def pyUrlencode (q : List (PyStr × PyStr)) : PyStr :=
  List.intercalate ['&'] (q.map fun kv => pyQuote kv.1 ++ '=' :: pyQuote kv.2)

/-- Components of a `pathlib.PurePosixPath`: a leading root marker, then
the non-empty segments with `.` segments dropped. -/
def pathParts (p : PyStr) : List PyStr :=
  (if p.head? = some '/' then [['/']] else []) ++
    ((p.splitOn '/').filter fun x => decide (x ≠ [] ∧ x ≠ ['.']))

/-- Python `Path(file).relative_to(vault)` followed by `str(...)`:
succeeds exactly when the parts of `vault` lead the parts of `file`;
the `ValueError` CPython raises otherwise is modelled by `none`. -/
def relativeTo (file vault : PyStr) : Option PyStr :=
  if listStarts (pathParts vault) (pathParts file) then
    some (let rest := (pathParts file).drop (pathParts vault).length;
          if rest = [] then ['.'] else List.intercalate ['/'] rest)
  else none

/-- Search result value object (`class Note` in functions.py). -/
structure Note where
  name : PyStr
  path : PyStr
  description : PyStr
deriving DecidableEq

/-- Embedding of `get_name_from_path(path, exclude_ext=True, vault=None)`.
Python's `if vault:` is truthy, so `None` and the empty string both take
the basename branch; otherwise the vault substring is removed everywhere,
leading slashes stripped, and remaining slashes turned into breadcrumbs. -/
def get_name_from_path (path : PyStr) (exclude_ext : Bool) (vault : Option PyStr) : PyStr :=
  let base :=
    match vault with
    | some v =>
      if v ≠ [] then replaceAll ['/'] (" > ".toList) (lstripSlash (replaceAll v [] path))
      else pyBasename path
    | none => pyBasename path
  if exclude_ext then (pySplitext base).1 else base

/-- Embedding of `fuzzyfinder(search, items)`.  The external
`ulauncher.utils.fuzzy_search.get_score` is an interchangeable capability
(spec section 9) and is passed in as `gs`; scores are modelled as `ℚ`.
Python's `sorted(..., reverse=True)` is a stable descending sort, which
`List.mergeSort` with a non-strict comparator reproduces. -/
def fuzzyfinder (gs : PyStr → PyStr → ℚ) (search : PyStr) (items : List PyStr) :
    List (ℚ × PyStr) :=
  ((items.map fun i => (gs search (get_name_from_path i true none), i)).filter
      fun x => decide (0 < x.1)).mergeSort
    fun a b => decide (b.1 ≤ a.1)

/-- Embedding of `generate_url(vault, file, mode)`. -/
def generate_url (vault file mode : PyStr) : PyStr :=
  let vault1 := if vault.getLast? = some '/' then vault.dropLast else vault
  let vault_name := get_name_from_path vault1 false none
  let file1 := if listEnds (".md".toList) file then file else file ++ ".md".toList
  match relativeTo file1 vault1 with
  | some relative_file =>
    "obsidian://".toList ++ mode ++ '?' ::
      pyUrlencode [("vault".toList, vault_name), ("file".toList, relative_file)]
  | none =>
    let file2 := if listEnds (".md".toList) file1 then file1 else file1 ++ ".md".toList
    "obsidian://".toList ++ mode ++ '?' ::
      pyUrlencode [("vault".toList, vault_name), ("file".toList, file2)]

/-- Result of daily-note path resolution (`class DailyPath`). -/
structure DailyPath where
  path : PyStr
  date : PyStr
  folder : PyStr
  existsOnDisk : Bool
deriving DecidableEq

/-- Daily-note configuration (`class DailySettings`). -/
structure DailySettings where
  format : PyStr
  folder : PyStr
deriving DecidableEq

/-- Parsed content of a daily-notes style JSON object with optional
`format` and `folder` string fields. -/
structure DailyJson where
  format : Option PyStr
  folder : Option PyStr
deriving DecidableEq

/-- Parsed content of the periodic-notes `data.json`, with its optional
`daily` sub-object. -/
structure PeriodicJson where
  daily : Option DailyJson
deriving DecidableEq

/-- Readable configuration state of a vault's `.obsidian` directory.
Each field is `none` when the corresponding file is missing, unreadable
or malformed (the bare `except:` clauses in functions.py turn every such
failure into an empty configuration). -/
structure ObsidianFS where
  core : Option (List PyStr)
  community : Option (List PyStr)
  dailyNotes : Option DailyJson
  periodic : Option PeriodicJson

/-- Embedding of `get_daily_settings(vault)`. -/
def get_daily_settings (fs : ObsidianFS) : DailySettings :=
  let cfg := fs.dailyNotes.getD ⟨none, none⟩
  let format := cfg.format.getD ("YYYY-MM-DD".toList)
  let folder := cfg.folder.getD []
  ⟨if format = [] then ("YYYY-MM-DD".toList) else format, folder⟩

/-- Embedding of `get_periodic_settings(vault)`. -/
def get_periodic_settings (fs : ObsidianFS) : DailySettings :=
  let daily_config := (fs.periodic.getD ⟨none⟩).daily.getD ⟨none, none⟩
  let format := daily_config.format.getD ("YYYY-MM-DD".toList)
  let folder := daily_config.folder.getD []
  ⟨if format = [] then ("YYYY-MM-DD".toList) else format, folder⟩

/-- Embedding of `is_obsidian_plugin_enabled(vault, name)`: membership in
the concatenation of the core and community registry lists, an
unreadable registry contributing nothing. -/
def is_obsidian_plugin_enabled (fs : ObsidianFS) (name : PyStr) : Bool :=
  decide (name ∈ fs.core.getD [] ++ fs.community.getD [])

/-- Embedding of `get_daily_path(vault)`.  The current date and the
`os.path.exists` probe are passed explicitly. -/
def get_daily_path (fs : ObsidianFS) (existsP : PyStr → Bool) (vault : PyStr)
    (today : Date) : DailyPath :=
  let settings :=
    if is_obsidian_plugin_enabled fs ("periodic-notes".toList) then
      get_periodic_settings fs
    else get_daily_settings fs
  let date := formatMoment settings.format today
  let path := pyJoin (pyJoin vault settings.folder) (date ++ ".md".toList)
  ⟨path, date, settings.folder, existsP path⟩

/-- Embedding of `assign_emoji_score(score)`. -/
def assign_emoji_score (score : ℚ) : PyStr :=
  if 95 ≤ score then ("🌟🌟🌟🌟🌟".toList)
  else if 75 ≤ score then ("🌟🌟🌟".toList)
  else if 50 ≤ score then ("🌟🌟".toList)
  else if 25 ≤ score then ("🌟".toList)
  else []

/-- Embedding of `find_note_in_vault(vault, search)`; the markdown files
the glob enumerates are passed explicitly. -/
def find_note_in_vault (gs : PyStr → PyStr → ℚ) (vault : PyStr) (files : List PyStr)
    (search : PyStr) : List Note :=
  (fuzzyfinder gs search files).map fun s =>
    ⟨get_name_from_path s.2 true (some vault), s.2, assign_emoji_score s.1⟩

/-- Line scan shared by tag and content search: Python's per-file loop
over lines with `line.lower().partition(search)`, stopping at the first
line whose separator component is non-empty.  `none` models the
`ValueError` an empty separator raises; `some none` means the file has no
hit; `some (some ctx)` is the context snippet of the first hit. -/
def scanLines (search : PyStr) : List PyStr → Option (Option PyStr)
  | [] => some none
  | line :: rest =>
    match pyPartition (pyLower line) search with
    | none => none
    | some (left, sep, right) =>
      if sep ≠ [] then some (some (left.drop 10 ++ sep ++ right.take 10))
      else scanLines search rest

/-- Vault-wide scan shared by tag and content search: one `Note` per file
with a hit, in file enumeration order; a raised `ValueError` anywhere
aborts the whole call. -/
def scanVault (vault search : PyStr) : List (PyStr × List PyStr) → Option (List Note)
  | [] => some []
  | (p, lines) :: rest => do
    let hit ← scanLines search lines
    let tail ← scanVault vault search rest
    match hit with
    | some ctx => pure (⟨get_name_from_path p true (some vault), p, ctx⟩ :: tail)
    | none => pure tail

/-- Embedding of `find_tag_in_vault(vault, search)`: empty queries
short-circuit, otherwise the query is lowercased and `#`-prefixed before
scanning.  The markdown files (path and list of lines) are passed
explicitly. -/
def find_tag_in_vault (vault : PyStr) (files : List (PyStr × List PyStr))
    (search : PyStr) : Option (List Note) :=
  if search = [] then some []
  else
    let s := pyLower search
    let s := if s.head? = some '#' then s else '#' :: s
    scanVault vault s files

/-- Embedding of `find_string_in_vault(vault, search)`: same scan with
the lowercased query and no short-circuit for the empty query. -/
def find_string_in_vault (vault : PyStr) (files : List (PyStr × List PyStr))
    (search : PyStr) : Option (List Note) :=
  scanVault vault (pyLower search) files

/-- Embedding of `create_note_in_vault(vault, name)`: the filesystem is a
partial map from path to file content, returned alongside the path. -/
def create_note_in_vault (fsFiles : PyStr → Option PyStr) (vault name : PyStr) :
    PyStr × (PyStr → Option PyStr) :=
  let path := pyJoin vault (name ++ ".md".toList)
  if (fsFiles path).isSome then (path, fsFiles)
  else (path, fun q => if q = path then some ('#' :: ' ' :: name) else fsFiles q)

/-- Characterisation of the Boolean starts-with test. -/
theorem listStarts_iff {α : Type} [DecidableEq α] (pat s : List α) :
    listStarts pat s = true ↔ ∃ t, s = pat ++ t := by
  induction pat generalizing s with
  | nil => simp [listStarts]
  | cons p ps ih =>
    cases s with
    | nil => simp [listStarts]
    | cons c cs =>
      simp only [listStarts, Bool.and_eq_true, decide_eq_true_iff, ih, List.cons_append,
        List.cons.injEq]
      constructor
      · rintro ⟨rfl, t, rfl⟩
        exact ⟨t, rfl, rfl⟩
      · rintro ⟨t, rfl, rfl⟩
        exact ⟨rfl, t, rfl⟩

/-- A string containing no occurrence of `pat` is left unchanged by the
replace scan, for any fuel. -/
theorem replaceAllGo_of_not_contains (pat new : PyStr) (fuel : Nat) (s : PyStr)
    (h : strContains pat s = false) : replaceAllGo pat new fuel s = s := by
  induction fuel generalizing s with
  | zero => cases s <;> rfl
  | succ n ih =>
    cases s with
    | nil => rfl
    | cons c cs =>
      have hparts : listStarts pat (c :: cs) = false ∧ strContains pat cs = false := by
        have := h
        simp only [strContains, Bool.or_eq_false_iff] at this
        exact this
      simp only [replaceAllGo]
      rw [if_neg (fun hc => by simp [hparts.1] at hc)]
      rw [ih cs hparts.2]

/-- Python `replace` is the identity when the pattern does not occur. -/
theorem replaceAll_of_not_contains (pat new s : PyStr)
    (h : strContains pat s = false) : replaceAll pat new s = s :=
  replaceAllGo_of_not_contains pat new s.length s h

/-- Python `replace` on a string that starts with the (non-empty) pattern
and contains no further occurrence. -/
theorem replaceAll_head_occurrence (pat new rest : PyStr) (hpat : pat ≠ [])
    (h : strContains pat rest = false) :
    replaceAll pat new (pat ++ rest) = new ++ rest := by
  obtain ⟨p, ps, rfl⟩ : ∃ p ps, pat = p :: ps := by
    cases pat with
    | nil => exact absurd rfl hpat
    | cons p ps => exact ⟨p, ps, rfl⟩
  have hstart : listStarts (p :: ps) (p :: ps ++ rest) = true :=
    (listStarts_iff _ _).2 ⟨rest, rfl⟩
  have hdrop : (p :: ps ++ rest).drop (p :: ps).length = rest := List.drop_left _ _
  unfold replaceAll
  have hlen : (p :: ps ++ rest).length = (ps ++ rest).length + 1 := by
    simp [List.length_cons]
  rw [hlen]
  show replaceAllGo (p :: ps) new ((ps ++ rest).length + 1) (p :: (ps ++ rest)) = new ++ rest
  rw [replaceAllGo]
  rw [if_pos ⟨hstart, by simp⟩]
  rw [show List.drop (p :: ps).length (p :: (ps ++ rest)) = rest from hdrop,
    replaceAllGo_of_not_contains _ _ _ _ h]

/-- Parts returned by the partition scan: a non-empty separator component
means the separator was found and the three parts reassemble the input. -/
theorem partFind_spec (sep s l m r : PyStr) (heq : partFind sep s = (l, m, r))
    (hm : m ≠ []) : m = sep ∧ l ++ sep ++ r = s := by
  induction s generalizing l with
  | nil =>
    simp only [partFind, Prod.mk.injEq] at heq
    exact absurd heq.2.1.symm hm
  | cons c cs ih =>
    by_cases hs : listStarts sep (c :: cs) = true
    · simp only [partFind, if_pos hs, Prod.mk.injEq] at heq
      obtain ⟨rfl, rfl, rfl⟩ := heq
      obtain ⟨t, ht⟩ := (listStarts_iff sep (c :: cs)).1 hs
      refine ⟨rfl, ?_⟩
      rw [ht, List.drop_left, List.nil_append]
    · simp only [partFind, if_neg hs, Prod.mk.injEq] at heq
      obtain ⟨hl, hm2, hr⟩ := heq
      have := ih (partFind sep cs).1
        (by rw [← hm2, ← hr])
      obtain ⟨h1, h2⟩ := this
      refine ⟨h1, ?_⟩
      rw [← hl, List.cons_append, List.cons_append, h2]

/-- Every context snippet found by the line scan is built from the
lowercased copy of some scanned line, around the search token itself. -/
theorem scanLines_spec (search : PyStr) (lines : List PyStr) (ctx : PyStr)
    (h : scanLines search lines = some (some ctx)) :
    ∃ line ∈ lines, ∃ l r : PyStr,
      pyLower line = l ++ search ++ r ∧ ctx = l.drop 10 ++ search ++ r.take 10 := by
  induction lines with
  | nil => simp [scanLines] at h
  | cons line rest ih =>
    rw [scanLines] at h
    split at h
    · exact absurd h (by simp)
    · rename_i l m r hp
      by_cases hm : m ≠ []
      · rw [if_pos hm] at h
        have hsep : search ≠ [] := by
          intro habs
          rw [habs] at hp
          simp [pyPartition] at hp
        have hfind : partFind search (pyLower line) = (l, m, r) := by
          simpa [pyPartition, hsep] using hp
        obtain ⟨hms, hjoin⟩ := partFind_spec search (pyLower line) l m r hfind hm
        refine ⟨line, List.mem_cons_self _ _, l, r, hjoin.symm, ?_⟩
        have := Option.some.inj (Option.some.inj h)
        rw [← this, hms]
      · rw [if_neg hm] at h
        obtain ⟨line2, h1, l2, r2, h2, h3⟩ := ih h
        exact ⟨line2, List.mem_cons_of_mem _ h1, l2, r2, h2, h3⟩

/-- Every note produced by the shared vault scan carries a context
snippet built from the lowercased copy of a line of one of the scanned
files, around the search token itself. -/
theorem scanVault_spec (vault search : PyStr) (files : List (PyStr × List PyStr))
    (notes : List Note) (h : scanVault vault search files = some notes) :
    ∀ n ∈ notes, ∃ f ∈ files, ∃ line ∈ f.2, ∃ l r : PyStr,
      pyLower line = l ++ search ++ r ∧
      n.description = l.drop 10 ++ search ++ r.take 10 := by
  induction files generalizing notes with
  | nil =>
    intro n hn
    simp only [scanVault] at h
    obtain rfl := Option.some.inj h
    cases hn
  | cons f rest ih =>
    intro n hn
    obtain ⟨p, lines⟩ := f
    rw [scanVault] at h
    rcases hscan : scanLines search lines with _ | hit
    · rw [hscan] at h
      cases h
    · rw [hscan] at h
      rcases hrest : scanVault vault search rest with _ | tail
      · rw [hrest] at h
        cases h
      · rw [hrest] at h
        cases hit with
        | none =>
          obtain rfl : tail = notes := Option.some.inj h
          obtain ⟨f2, h1, rest2⟩ := ih tail hrest n hn
          exact ⟨f2, List.mem_cons_of_mem _ h1, rest2⟩
        | some ctx =>
          obtain rfl : (⟨get_name_from_path p true (some vault), p, ctx⟩ : Note) :: tail
              = notes := Option.some.inj h
          cases hn with
          | head =>
            obtain ⟨line, hl1, l, r, hl2, hl3⟩ := scanLines_spec search lines ctx hscan
            exact ⟨(p, lines), List.mem_cons_self _ _, line, hl1, l, r, hl2, hl3⟩
          | tail b hmem =>
            obtain ⟨f2, h1, rest2⟩ := ih tail hrest n hmem
            exact ⟨f2, List.mem_cons_of_mem _ h1, rest2⟩

/-- Decimal renderings are never empty and start with a decimal digit
character. -/
theorem natDigits_head (n : Nat) :
    ∃ k, k < 10 ∧ ∃ t, natDigits n = digitChar k :: t := by
  have go : ∀ fuel m, natDigitsGo fuel m = [] ∨
      ∃ k, k < 10 ∧ ∃ t, natDigitsGo fuel m = digitChar k :: t := by
    intro fuel
    induction fuel with
    | zero => intro m; left; rfl
    | succ f ih =>
      intro m
      by_cases hm : m < 10
      · right
        exact ⟨m, hm, [], by rw [natDigitsGo, if_pos hm]⟩
      · right
        rcases ih (m / 10) with hnil | ⟨k, hk, t, ht⟩
        · refine ⟨m % 10, Nat.mod_lt _ (by omega), [], ?_⟩
          rw [natDigitsGo, if_neg hm, hnil, List.nil_append]
        · refine ⟨k, hk, t ++ [digitChar (m % 10)], ?_⟩
          rw [natDigitsGo, if_neg hm, ht, List.cons_append]
  rcases go (n + 1) n with hnil | h
  · rw [natDigits] at *
    exfalso
    by_cases hn : n < 10
    · rw [natDigitsGo, if_pos hn] at hnil
      cases hnil
    · rw [natDigitsGo, if_neg hn] at hnil
      exact absurd hnil (by simp)
  · exact h

/-- Decimal digit characters are never a path separator. -/
theorem digitChar_ne_slash (k : Nat) : digitChar k ≠ '/' := by
  unfold digitChar
  split_ifs <;> decide

/-- A zero-padded decimal rendering starts with a digit, hence never with
a slash. -/
theorem padZero_natDigits_head (w n : Nat) :
    ∃ c t, padZero w (natDigits n) = c :: t ∧ c ≠ '/' := by
  obtain ⟨k, hk, t, ht⟩ := natDigits_head n
  unfold padZero
  rcases hw : w - (natDigits n).length with _ | m
  · exact ⟨digitChar k, t, by rw [List.replicate, List.nil_append, ht], digitChar_ne_slash k⟩
  · exact ⟨'0', List.replicate m '0' ++ natDigits n,
      by rw [List.replicate, List.cons_append], by decide⟩

/-- First component of `create_note_in_vault` is always the joined path. -/
theorem create_note_fst (fs : PyStr → Option PyStr) (vault name : PyStr) :
    (create_note_in_vault fs vault name).1 = pyJoin vault (name ++ ".md".toList) := by
  rw [create_note_in_vault]
  split <;> rfl

/-- After `create_note_in_vault` the target file exists. -/
theorem create_note_some (fs : PyStr → Option PyStr) (vault name : PyStr) :
    ((create_note_in_vault fs vault name).2 (pyJoin vault (name ++ ".md".toList))).isSome
      = true := by
  rw [create_note_in_vault]
  by_cases h : (fs (pyJoin vault (name ++ ".md".toList))).isSome
  · rw [if_pos h]
    exact h
  · rw [if_neg h]
    simp

/-- C7: `assign_emoji_score` maps a score to stars by fixed half-open
intervals, five stars on [95,∞), three on [75,95), two on [50,75), one on
[25,50) and none on [0,25); in particular 95 yields five stars, 94.999
three, and 24.999 none. -/
theorem C7_assign_emoji_score_intervals (s : ℚ) :
    (95 ≤ s → assign_emoji_score s = "🌟🌟🌟🌟🌟".toList) ∧
    (75 ≤ s → s < 95 → assign_emoji_score s = "🌟🌟🌟".toList) ∧
    (50 ≤ s → s < 75 → assign_emoji_score s = "🌟🌟".toList) ∧
    (25 ≤ s → s < 50 → assign_emoji_score s = "🌟".toList) ∧
    (0 ≤ s → s < 25 → assign_emoji_score s = []) ∧
    assign_emoji_score 95 = "🌟🌟🌟🌟🌟".toList ∧
    assign_emoji_score (94999 / 1000) = "🌟🌟🌟".toList ∧
    assign_emoji_score (24999 / 1000) = [] := by
  refine ⟨fun h1 => ?_, fun h1 h2 => ?_, fun h1 h2 => ?_, fun h1 h2 => ?_,
    fun h1 h2 => ?_, ?_, ?_, ?_⟩
  · rw [assign_emoji_score, if_pos h1]
  · rw [assign_emoji_score, if_neg (by linarith), if_pos h1]
  · rw [assign_emoji_score, if_neg (by linarith), if_neg (by linarith), if_pos h1]
  · rw [assign_emoji_score, if_neg (by linarith), if_neg (by linarith),
      if_neg (by linarith), if_pos h1]
  · rw [assign_emoji_score, if_neg (by linarith), if_neg (by linarith),
      if_neg (by linarith), if_neg (by linarith)]
  · rw [assign_emoji_score, if_pos (by norm_num)]
  · rw [assign_emoji_score, if_neg (by norm_num), if_pos (by norm_num)]
  · rw [assign_emoji_score, if_neg (by norm_num), if_neg (by norm_num),
      if_neg (by norm_num), if_neg (by norm_num)]

/-- Witness for C7: one concrete score inside each interval. -/
theorem C7_witness :
    assign_emoji_score 95 = "🌟🌟🌟🌟🌟".toList ∧
    assign_emoji_score 80 = "🌟🌟🌟".toList ∧
    assign_emoji_score 60 = "🌟🌟".toList ∧
    assign_emoji_score 30 = "🌟".toList ∧
    assign_emoji_score 10 = [] :=
  ⟨(C7_assign_emoji_score_intervals 95).1 (by norm_num),
   (C7_assign_emoji_score_intervals 80).2.1 (by norm_num) (by norm_num),
   (C7_assign_emoji_score_intervals 60).2.2.1 (by norm_num) (by norm_num),
   (C7_assign_emoji_score_intervals 30).2.2.2.1 (by norm_num) (by norm_num),
   (C7_assign_emoji_score_intervals 10).2.2.2.2.1 (by norm_num) (by norm_num)⟩

/-- C5: on vault "/a/vault" and the bare note name "Test Note" in open
mode, relative resolution fails, `generate_url` takes the fallback branch
and returns exactly obsidian://open?vault=vault&file=Test%20Note.md, with
".md" appended once and the space encoded as %20. -/
theorem C5_generate_url_bare_name :
    relativeTo ("Test Note.md".toList) ("/a/vault".toList) = none ∧
    generate_url ("/a/vault".toList) ("Test Note".toList) ("open".toList) =
      "obsidian://open?vault=vault&file=Test%20Note.md".toList :=
  ⟨rfl, rfl⟩

/-- C1: at a line whose text before the match is longer than ten
characters, the description computed by the scan is
`left[10:] ++ sep ++ right[:10]` — the whole left part minus its first
ten characters — and differs from the claimed window made of the last ten
characters of the left part; both search entry points show it. -/
theorem C1_context_window_failing_input :
    find_tag_in_vault ("v".toList)
        [(("v/a.md".toList), ["aaaaaaaaaaaaaaaaaaaaaaaaa#tag-0123456789xy".toList])]
        ("tag".toList) =
      some [⟨"a".toList, "v/a.md".toList, "aaaaaaaaaaaaaaa#tag-012345678".toList⟩] ∧
    find_string_in_vault ("v".toList)
        [(("v/a.md".toList), ["aaaaaaaaaaaaaaaaaaaaaaaaa#tag-0123456789xy".toList])]
        ("#tag".toList) =
      some [⟨"a".toList, "v/a.md".toList, "aaaaaaaaaaaaaaa#tag-012345678".toList⟩] ∧
    pyPartition (pyLower ("aaaaaaaaaaaaaaaaaaaaaaaaa#tag-0123456789xy".toList))
        ("#tag".toList) =
      some ("aaaaaaaaaaaaaaaaaaaaaaaaa".toList, "#tag".toList, "-0123456789xy".toList) ∧
    ("aaaaaaaaaaaaaaaaaaaaaaaaa".toList).drop
        (("aaaaaaaaaaaaaaaaaaaaaaaaa".toList).length - 10) ++ "#tag".toList ++
        ("-0123456789xy".toList).take 10 =
      "aaaaaaaaaa#tag-012345678".toList ∧
    "aaaaaaaaaaaaaaa#tag-012345678".toList ≠ "aaaaaaaaaa#tag-012345678".toList := by
  refine ⟨rfl, rfl, rfl, rfl, ?_⟩
  decide

/-- C3 counterexample: on a path with no common prefix with the vault,
`get_name_from_path` with the vault supplied returns the breadcrumb of
the whole path, not the OS basename the claim asserts as fallback. -/
theorem C3_counterexample_not_basename :
    get_name_from_path ("/other/place/note.md".toList) true (some ("/a/vault".toList)) =
      "other > place > note".toList ∧
    get_name_from_path ("/other/place/note.md".toList) true none = "note".toList ∧
    "other > place > note".toList ≠ "note".toList := by
  refine ⟨rfl, rfl, ?_⟩
  decide

/-- C3 amended: with a non-null, non-empty vault that occurs in the path
only as a leading prefix, `get_name_from_path` returns the remainder
after the vault with leading slashes stripped and separators replaced by
" > " (extension stripped per the flag); and for a path in which the
vault string does not occur at all it returns the whole path — leading
slashes stripped, separators replaced by " > " — not the OS basename. -/
theorem C3_display_name_amended (path vault rest : PyStr) (ex : Bool) :
    (vault ≠ [] → strContains vault path = false →
      get_name_from_path path ex (some vault) =
        (if ex then (pySplitext (replaceAll ['/'] (" > ".toList) (lstripSlash path))).1
         else replaceAll ['/'] (" > ".toList) (lstripSlash path))) ∧
    (vault ≠ [] → strContains vault ('/' :: rest) = false →
      get_name_from_path (vault ++ '/' :: rest) ex (some vault) =
        (if ex then (pySplitext (replaceAll ['/'] (" > ".toList) (lstripSlash rest))).1
         else replaceAll ['/'] (" > ".toList) (lstripSlash rest))) := by
  constructor
  · intro hv hocc
    rw [get_name_from_path]
    rw [if_pos hv]
    rw [replaceAll_of_not_contains vault [] path hocc]
  · intro hv hocc
    rw [get_name_from_path]
    rw [if_pos hv]
    rw [replaceAll_head_occurrence vault [] ('/' :: rest) hv hocc]
    rw [List.nil_append]
    have : lstripSlash ('/' :: rest) = lstripSlash rest := by
      rw [lstripSlash, lstripSlash, List.dropWhile_cons]
      rw [if_pos (by decide)]
    rw [this]

/-- Witness for C3 amended at a concrete out-of-vault path. -/
theorem C3_amended_witness :
    get_name_from_path ("/other/place/note.md".toList) true (some ("/a/vault".toList)) =
      (pySplitext (replaceAll ['/'] (" > ".toList)
        (lstripSlash ("/other/place/note.md".toList)))).1 := by
  have h := (C3_display_name_amended ("/other/place/note.md".toList)
    ("/a/vault".toList) [] true).1 (by decide) (by decide)
  simpa using h

/-- C8: `create_note_in_vault` is idempotent: when the target file is
absent the first call creates it with the single heading line "# name",
a second identical call leaves the filesystem unchanged, pre-existing
content is untouched, and both calls return the joined path. -/
theorem C8_create_note_idempotent (fs0 : PyStr → Option PyStr) (vault name : PyStr) :
    (create_note_in_vault fs0 vault name).1 = pyJoin vault (name ++ ".md".toList) ∧
    (create_note_in_vault (create_note_in_vault fs0 vault name).2 vault name).1 =
      pyJoin vault (name ++ ".md".toList) ∧
    (create_note_in_vault (create_note_in_vault fs0 vault name).2 vault name).2 =
      (create_note_in_vault fs0 vault name).2 ∧
    (fs0 (pyJoin vault (name ++ ".md".toList)) = none →
      (create_note_in_vault fs0 vault name).2 (pyJoin vault (name ++ ".md".toList)) =
        some ('#' :: ' ' :: name)) ∧
    (∀ c, fs0 (pyJoin vault (name ++ ".md".toList)) = some c →
      (create_note_in_vault fs0 vault name).2 = fs0) := by
  have hsecond : create_note_in_vault (create_note_in_vault fs0 vault name).2 vault name =
      (pyJoin vault (name ++ ".md".toList), (create_note_in_vault fs0 vault name).2) := by
    rw [create_note_in_vault]
    rw [if_pos (create_note_some fs0 vault name)]
  refine ⟨create_note_fst fs0 vault name, ?_, ?_, ?_, ?_⟩
  · rw [hsecond]
  · rw [hsecond]
  · intro hnone
    rw [create_note_in_vault]
    rw [if_neg (by rw [hnone]; simp)]
    simp
  · intro c hc
    rw [create_note_in_vault]
    rw [if_pos (by rw [hc]; rfl)]

/-- Witness for C8 on the empty filesystem and concrete names. -/
theorem C8_witness :
    (create_note_in_vault (fun _ => none) ("v".toList) ("n".toList)).2
        (pyJoin ("v".toList) ("n".toList ++ ".md".toList)) =
      some ('#' :: ' ' :: "n".toList) :=
  (C8_create_note_idempotent (fun _ => none) ("v".toList) ("n".toList)).2.2.2.1 rfl

/-- C9: content search with the empty query raises (modelled as `none`)
on every vault holding at least one markdown file with at least one line,
while tag search with the empty query always returns the empty list. -/
theorem C9_empty_query_raises (vault : PyStr) (files : List (PyStr × List PyStr)) :
    ((∃ f ∈ files, f.2 ≠ []) → find_string_in_vault vault files [] = none) ∧
    find_tag_in_vault vault files [] = some [] := by
  constructor
  · rintro ⟨f, hf, hne⟩
    rw [find_string_in_vault]
    show scanVault vault [] files = none
    induction files with
    | nil => cases hf
    | cons g gs ih =>
      obtain ⟨p, lines⟩ := g
      cases hf with
      | head =>
        cases lines with
        | nil => exact absurd rfl hne
        | cons line ls =>
          rw [scanVault]
          rw [show scanLines [] (line :: ls) = none by rw [scanLines]; rfl]
          rfl
      | tail b hf =>
        cases lines with
        | nil =>
          rw [scanVault]
          rw [show scanLines ([] : PyStr) ([] : List PyStr) = some none from rfl]
          rw [ih hf]
          rfl
        | cons line ls =>
          rw [scanVault]
          rw [show scanLines [] (line :: ls) = none by rw [scanLines]; rfl]
          rfl
  · rw [find_tag_in_vault]
    rw [if_pos rfl]

/-- Witness for C9 on a one-file, one-line vault. -/
theorem C9_witness :
    find_string_in_vault ("v".toList) [(("v/a.md".toList), ["x".toList])] [] = none :=
  (C9_empty_query_raises ("v".toList) [(("v/a.md".toList), ["x".toList])]).1
    ⟨(("v/a.md".toList), ["x".toList]), by simp, by simp⟩

/-- C10: every context snippet returned by tag search or content search
is a window of the lowercased copy of the matched line, and the matched
portion inside it is exactly the normalized query token (lowercased, and
"#"-prefixed for tag search), so the snippet never preserves the original
letter case of the file's text. -/
theorem C10_lowercased_snippets (vault q0 : PyStr) (files : List (PyStr × List PyStr))
    (notes notes2 : List Note) :
    (find_tag_in_vault vault files q0 = some notes → ∀ n ∈ notes,
      ∃ f ∈ files, ∃ line ∈ f.2, ∃ l r : PyStr,
        pyLower line = l ++ (if (pyLower q0).head? = some '#' then pyLower q0
          else '#' :: pyLower q0) ++ r ∧
        n.description = l.drop 10 ++ (if (pyLower q0).head? = some '#' then pyLower q0
          else '#' :: pyLower q0) ++ r.take 10) ∧
    (find_string_in_vault vault files q0 = some notes2 → ∀ n ∈ notes2,
      ∃ f ∈ files, ∃ line ∈ f.2, ∃ l r : PyStr,
        pyLower line = l ++ pyLower q0 ++ r ∧
        n.description = l.drop 10 ++ pyLower q0 ++ r.take 10) := by
  constructor
  · intro h n hn
    rw [find_tag_in_vault] at h
    by_cases hq : q0 = []
    · rw [if_pos hq] at h
      obtain rfl := Option.some.inj h
      cases hn
    · rw [if_neg hq] at h
      exact scanVault_spec _ _ _ _ h n hn
  · intro h n hn
    rw [find_string_in_vault] at h
    exact scanVault_spec _ _ _ _ h n hn

/-- Witness for C10 on a concrete mixed-case line and query. -/
theorem C10_witness :
    ∃ f ∈ [(("v/a.md".toList), ["AbC#TaG hi".toList])], ∃ line ∈ f.2, ∃ l r : PyStr,
      pyLower line = l ++ "#tag".toList ++ r ∧
      ("#tag hi".toList : PyStr) = l.drop 10 ++ "#tag".toList ++ r.take 10 :=
  (C10_lowercased_snippets ("v".toList) ("Tag".toList)
      [(("v/a.md".toList), ["AbC#TaG hi".toList])]
      [⟨"a".toList, "v/a.md".toList, "#tag hi".toList⟩] []).1 rfl
    ⟨"a".toList, "v/a.md".toList, "#tag hi".toList⟩ (by decide)

/-- C2: when "periodic-notes" belongs to the union of the core and
community plugin registries, `get_daily_path` resolves exclusively from
the periodic-notes daily configuration — the legacy daily-notes
configuration is never consulted, whatever it holds, even when the
periodic file is missing or empty — and applies defaults format
"YYYY-MM-DD" (absent or empty) and folder "" (absent); when the plugin is
not enabled the legacy configuration with the same defaults is used and
the periodic file is irrelevant. -/
theorem C2_periodic_precedence (fs : ObsidianFS) (existsP : PyStr → Bool)
    (vault : PyStr) (today : Date) :
    (("periodic-notes".toList ∈ fs.core.getD [] ++ fs.community.getD []) →
      (∀ d : Option DailyJson,
        get_daily_path { fs with dailyNotes := d } existsP vault today =
          get_daily_path fs existsP vault today) ∧
      (get_daily_path fs existsP vault today).folder =
        (get_periodic_settings fs).folder ∧
      (get_daily_path fs existsP vault today).date =
        formatMoment (get_periodic_settings fs).format today) ∧
    (("periodic-notes".toList ∉ fs.core.getD [] ++ fs.community.getD []) →
      (∀ p : Option PeriodicJson,
        get_daily_path { fs with periodic := p } existsP vault today =
          get_daily_path fs existsP vault today) ∧
      (get_daily_path fs existsP vault today).folder =
        (get_daily_settings fs).folder ∧
      (get_daily_path fs existsP vault today).date =
        formatMoment (get_daily_settings fs).format today) ∧
    (fs.periodic = none → get_periodic_settings fs = ⟨"YYYY-MM-DD".toList, []⟩) ∧
    (∀ pj, fs.periodic = some pj → pj.daily = none →
      get_periodic_settings fs = ⟨"YYYY-MM-DD".toList, []⟩) ∧
    (∀ pj dj, fs.periodic = some pj → pj.daily = some dj →
      (dj.format = none ∨ dj.format = some []) →
      (get_periodic_settings fs).format = "YYYY-MM-DD".toList) ∧
    (∀ pj dj, fs.periodic = some pj → pj.daily = some dj → dj.folder = none →
      (get_periodic_settings fs).folder = []) ∧
    (fs.dailyNotes = none → get_daily_settings fs = ⟨"YYYY-MM-DD".toList, []⟩) ∧
    (∀ dj, fs.dailyNotes = some dj → (dj.format = none ∨ dj.format = some []) →
      (get_daily_settings fs).format = "YYYY-MM-DD".toList) ∧
    (∀ dj, fs.dailyNotes = some dj → dj.folder = none →
      (get_daily_settings fs).folder = []) := by
  refine ⟨?_, ?_, ?_, ?_, ?_, ?_, ?_, ?_, ?_⟩
  · intro h
    have he : is_obsidian_plugin_enabled fs ("periodic-notes".toList) = true := by
      rw [is_obsidian_plugin_enabled]
      exact decide_eq_true h
    refine ⟨fun d => ?_, ?_, ?_⟩
    · have he2 : is_obsidian_plugin_enabled { fs with dailyNotes := d }
          ("periodic-notes".toList) = true := he
      rw [get_daily_path, get_daily_path, he, he2]
      rfl
    · rw [get_daily_path, he]
      rfl
    · rw [get_daily_path, he]
      rfl
  · intro h
    have he : is_obsidian_plugin_enabled fs ("periodic-notes".toList) = false := by
      rw [is_obsidian_plugin_enabled]
      exact decide_eq_false h
    refine ⟨fun p => ?_, ?_, ?_⟩
    · have he2 : is_obsidian_plugin_enabled { fs with periodic := p }
          ("periodic-notes".toList) = false := he
      rw [get_daily_path, get_daily_path, he, he2]
      rfl
    · rw [get_daily_path, he]
      rfl
    · rw [get_daily_path, he]
      rfl
  · intro h
    rw [get_periodic_settings, h]
    rfl
  · intro pj h hd
    rw [get_periodic_settings, h]
    simp only [Option.getD_some]
    rw [hd]
    rfl
  · intro pj dj h hd hf
    rw [get_periodic_settings, h]
    simp only [Option.getD_some]
    rw [hd]
    simp only [Option.getD_some]
    rcases hf with hf | hf <;> rw [hf] <;> rfl
  · intro pj dj h hd hf
    rw [get_periodic_settings, h]
    simp only [Option.getD_some]
    rw [hd]
    simp only [Option.getD_some]
    rw [hf]
    rfl
  · intro h
    rw [get_daily_settings, h]
    rfl
  · intro dj h hf
    rw [get_daily_settings, h]
    simp only [Option.getD_some]
    rcases hf with hf | hf <;> rw [hf] <;> rfl
  · intro dj h hf
    rw [get_daily_settings, h]
    simp only [Option.getD_some]
    rw [hf]
    rfl

/-- Witness for C2 with the plugin enabled, a missing periodic file and a
populated legacy configuration that must be ignored. -/
theorem C2_witness :
    get_daily_path
        ⟨some ["periodic-notes".toList], none,
          some ⟨some ("DD".toList), some ("journal".toList)⟩, none⟩
        (fun _ => false) ("va".toList) ⟨2021, 7, 16⟩ =
      get_daily_path ⟨some ["periodic-notes".toList], none, none, none⟩
        (fun _ => false) ("va".toList) ⟨2021, 7, 16⟩ :=
  ((C2_periodic_precedence ⟨some ["periodic-notes".toList], none, none, none⟩
      (fun _ => false) ("va".toList) ⟨2021, 7, 16⟩).1 (by decide)).1
    (some ⟨some ("DD".toList), some ("journal".toList)⟩)

/-- C6: with every configuration and registry read failing, the plugin
check sees empty registries, the legacy defaults apply, and
`get_daily_path` returns — without propagating any error — folder "",
today formatted with the default "YYYY-MM-DD" format, and path
vault/DATE.md; the second conjunct spells out the default date
rendering (zero-padded year-month-day). -/
theorem C6_default_daily_path (existsP : PyStr → Bool) (vault : PyStr) (today : Date)
    (h1 : vault ≠ []) (h2 : vault.getLast? ≠ some '/') :
    get_daily_path ⟨none, none, none, none⟩ existsP vault today =
      ⟨vault ++ '/' :: (formatMoment ("YYYY-MM-DD".toList) today ++ ".md".toList),
       formatMoment ("YYYY-MM-DD".toList) today, [],
       existsP (vault ++ '/' ::
         (formatMoment ("YYYY-MM-DD".toList) today ++ ".md".toList))⟩ ∧
    formatMoment ("YYYY-MM-DD".toList) today =
      padZero 4 (natDigits today.year) ++ '-' ::
        (padZero 2 (natDigits today.month) ++ '-' :: padZero 2 (natDigits today.day)) := by
  have hfmt0 : formatMoment ("YYYY-MM-DD".toList) today =
      padZero 4 (natDigits today.year) ++ '-' ::
        (padZero 2 (natDigits today.month) ++ '-' ::
          (padZero 2 (natDigits today.day) ++ [])) := rfl
  have hfmt : formatMoment ("YYYY-MM-DD".toList) today =
      padZero 4 (natDigits today.year) ++ '-' ::
        (padZero 2 (natDigits today.month) ++ '-' ::
          padZero 2 (natDigits today.day)) := by
    rw [hfmt0, List.append_nil]
  refine ⟨?_, hfmt⟩
  have hj1 : pyJoin vault [] = vault ++ ['/'] := by
    rw [pyJoin]
    rw [if_neg (by simp)]
    rw [if_neg (by push_neg; exact ⟨h1, h2⟩)]
  obtain ⟨c, t, hct, hc⟩ : ∃ c t, formatMoment ("YYYY-MM-DD".toList) today = c :: t ∧
      c ≠ '/' := by
    obtain ⟨c, t, hct, hc⟩ := padZero_natDigits_head 4 today.year
    exact ⟨c, t ++ '-' :: (padZero 2 (natDigits today.month) ++ '-' ::
      padZero 2 (natDigits today.day)), by rw [hfmt, hct, List.cons_append], hc⟩
  have hj2 : pyJoin (vault ++ ['/'])
      (formatMoment ("YYYY-MM-DD".toList) today ++ ".md".toList) =
      vault ++ '/' :: (formatMoment ("YYYY-MM-DD".toList) today ++ ".md".toList) := by
    rw [pyJoin]
    rw [if_neg (by rw [hct, List.cons_append, List.head?_cons]; simp [hc])]
    rw [if_pos (Or.inr (List.getLast?_concat vault))]
    rw [List.append_assoc]
    rfl
  calc get_daily_path ⟨none, none, none, none⟩ existsP vault today
      = ⟨pyJoin (pyJoin vault [])
            (formatMoment ("YYYY-MM-DD".toList) today ++ ".md".toList),
         formatMoment ("YYYY-MM-DD".toList) today, [],
         existsP (pyJoin (pyJoin vault [])
            (formatMoment ("YYYY-MM-DD".toList) today ++ ".md".toList))⟩ := rfl
    _ = _ := by rw [hj1, hj2]

/-- Witness for C6 on a concrete vault and date. -/
theorem C6_witness :
    get_daily_path ⟨none, none, none, none⟩ (fun _ => false) ("va".toList)
        ⟨2021, 7, 16⟩ =
      ⟨"va/2021-07-16.md".toList, "2021-07-16".toList, [], false⟩ := by
  have h := (C6_default_daily_path (fun _ => false) ("va".toList) ⟨2021, 7, 16⟩
    (by decide) (by decide)).1
  exact h.trans (by decide)

/-- Transitivity of the descending-score comparator `fuzzyfinder` sorts
with. -/
theorem rankLe_trans (a b c : ℚ × PyStr) (hab : decide (b.1 ≤ a.1) = true)
    (hbc : decide (c.1 ≤ b.1) = true) : decide (c.1 ≤ a.1) = true := by
  rw [decide_eq_true_iff] at hab hbc ⊢
  exact le_trans hbc hab

/-- Totality of the descending-score comparator. -/
theorem rankLe_total (a b : ℚ × PyStr) :
    (decide (b.1 ≤ a.1) || decide (a.1 ≤ b.1)) = true := by
  rcases le_total b.1 a.1 with h | h
  · rw [decide_eq_true h]
    rfl
  · rw [decide_eq_true h]
    simp

/-- Stability of the descending merge sort: the subsequence at any fixed
score is exactly the input subsequence at that score. -/
theorem mergeSort_stable_key (l : List (ℚ × PyStr)) (v : ℚ) :
    (List.mergeSort l (fun a b => decide (b.1 ≤ a.1))).filter
        (fun x => decide (x.1 = v)) =
      l.filter (fun x => decide (x.1 = v)) := by
  have hsubl : (l.filter (fun x => decide (x.1 = v))).Sublist
      (List.mergeSort l (fun a b => decide (b.1 ≤ a.1))) := by
    apply List.sublist_mergeSort rankLe_trans rankLe_total ?_ (List.filter_sublist _)
    apply List.pairwise_of_forall_mem_list
    intro a ha b hb
    have ha2 := List.of_mem_filter ha
    have hb2 := List.of_mem_filter hb
    rw [decide_eq_true_iff] at ha2 hb2
    exact decide_eq_true (by rw [ha2, hb2])
  have hsub2 : (l.filter (fun x => decide (x.1 = v))).Sublist
      ((List.mergeSort l (fun a b => decide (b.1 ≤ a.1))).filter
        (fun x => decide (x.1 = v))) := by
    have h3 := List.Sublist.filter (fun x => decide (x.1 = v)) hsubl
    have hself : List.filter (fun x => decide (x.1 = v))
        (List.filter (fun x => decide (x.1 = v)) l) =
        List.filter (fun x => decide (x.1 = v)) l :=
      List.filter_eq_self.2
        (fun a ha => @List.of_mem_filter (ℚ × PyStr) (fun x => decide (x.1 = v)) a l ha)
    rw [hself] at h3
    exact h3
  have hlen := (List.Perm.filter (fun x => decide (x.1 = v))
    (List.mergeSort_perm l (fun a b => decide (b.1 ≤ a.1)))).length_eq
  exact (hsub2.eq_of_length hlen.symm).symm

/-- C4: `fuzzyfinder` returns exactly the candidates whose score against
their derived display name is strictly positive, as score/path pairs in
descending score order, and candidates of equal score keep their relative
input order (the filtered subsequence at every score value is untouched). -/
theorem C4_fuzzyfinder_rank (gs : PyStr → PyStr → ℚ) (q : PyStr)
    (items : List PyStr) :
    List.Pairwise (fun a b : ℚ × PyStr => b.1 ≤ a.1) (fuzzyfinder gs q items) ∧
    List.Perm (fuzzyfinder gs q items)
      ((items.map fun i => (gs q (get_name_from_path i true none), i)).filter
        fun x => decide (0 < x.1)) ∧
    ∀ v : ℚ,
      (fuzzyfinder gs q items).filter (fun x => decide (x.1 = v)) =
        ((items.map fun i => (gs q (get_name_from_path i true none), i)).filter
          fun x => decide (0 < x.1)).filter (fun x => decide (x.1 = v)) := by
  refine ⟨?_, ?_, ?_⟩
  · exact List.Pairwise.imp (fun h => decide_eq_true_iff.1 h)
      (List.sorted_mergeSort rankLe_trans rankLe_total
        ((items.map fun i => (gs q (get_name_from_path i true none), i)).filter
          fun x => decide (0 < x.1)))
  · exact List.mergeSort_perm _ _
  · intro v
    exact mergeSort_stable_key
      ((items.map fun i => (gs q (get_name_from_path i true none), i)).filter
        fun x => decide (0 < x.1)) v
